import Mathlib

/-!
# Verification of the GitLens view-tree engine specification

A shallow embedding, in Lean 4, of the parts of the `vscode-gitlens` view
layer that the specification talks about:

* the `RepositoryChangeEvent` relevance test and the per-view watch sets
  (`contributorsView.ts`, `branchesView.ts`);
* the lazily-cached `getChildren` / `refresh` / `getLog` / `loadMore`
  machinery of `BranchNode` (`views/nodes/branchNode.ts`) and of
  `BranchesNode` / `BranchesViewNode` (`contributorsView.ts`,
  `branchesView.ts`);
* the bounded-depth, predicate-driven find/reveal engine together with the
  concrete `canTraverse` filters of `BranchesView.findBranch`,
  `RepositoriesView.findCommit` and `CommitsView.findCommit`;
* the bounded-time enrichment racer (`raceAll`) and the deferred
  follow-up-refresh protocol of `LineAnnotationController`.

Each TypeScript method is translated into an executable Lean function over
explicit state; asynchronous effects are modelled by explicit environment
records (the values the awaited collaborator calls return) and by
instrumentation fields recording which effects were issued (children
fetches, `loadMore` calls, disposal calls).  Functions whose source is not
part of the extracted sources (only their callers are) are modelled from
the specification and say so in their doc comment.
-/

/-! ## Change events (§3 ChangeEvent, §4.4)

The enumeration of change kinds used by `Repository` change notifications.
The concrete watch sets below are taken from `contributorsView.ts` and
`branchesView.ts`; the `changed` relevance test itself lives in
`git/models/repository.ts`, which is not among the extracted sources, so it
is modelled from the specification. -/

inductive RepositoryChange where
  | Config
  | Heads
  | Index
  | Remotes
  | Status
  | Tags
  | Stashes
  | Unknown
deriving DecidableEq, Repr

inductive RepositoryChangeComparisonMode where
  | Any
  | All
deriving DecidableEq, Repr

structure RepositoryChangeEvent where
  changedKinds : List RepositoryChange
deriving DecidableEq, Repr

/-- Modelled from the spec: `RepositoryChangeEvent.changed` is declared in
`git/models/repository.ts`, which is not among the extracted sources.  Per
the specification, `matches(kinds, mode)` in ANY mode returns true iff the
intersection of `kinds` with the event's changed kinds is non-empty, with
`Unknown` in the event's changed kinds conservatively matching every
ANY-mode query; in ALL mode it returns true iff `kinds` is a subset of the
changed kinds. -/
def RepositoryChangeEvent.changed (e : RepositoryChangeEvent)
    (kinds : List RepositoryChange) (mode : RepositoryChangeComparisonMode) : Bool :=
  match mode with
  | .Any => kinds.any (fun k => e.changedKinds.contains k) || e.changedKinds.contains .Unknown
  | .All => kinds.all (fun k => e.changedKinds.contains k)

/-- The watch set of `ContributorsRepositoryNode.changed`
(`contributorsView.ts`, lines 30-38). -/
def ContributorsRepositoryNode.changed (e : RepositoryChangeEvent) : Bool :=
  e.changed [.Config, .Heads, .Remotes, .Unknown] .Any

/-- The watch set of `BranchesRepositoryNode.changed`
(`branchesView.ts`, lines 51-61). -/
def BranchesRepositoryNode.changed (e : RepositoryChangeEvent) : Bool :=
  e.changed [.Config, .Heads, .Index, .Remotes, .Status, .Unknown] .Any

/-! ## Enrichment racer (§4.3)

`Promises.raceAll` lives in `system/promise.ts`, which is not among the
extracted sources (its callers in `LineAnnotationController` are), so it is
modelled from the specification.  A lookup is modelled by the time at which
its future settles together with the value it settles to. -/

structure TimedLookup (V : Type) where
  settleTime : Nat
  value : V
deriving DecidableEq, Repr

inductive RaceResult (K V : Type) where
  /-- The lookup settled within the timeout and produced this value. -/
  | resolved (v : V)
  /-- The lookup timed out; the placeholder wraps the still-running future,
  tagged with the lookup key for later correlation. -/
  | pending (key : K)
deriving DecidableEq, Repr

/-- Modelled from the spec: `raceAll(keys, lookup, timeoutMillis)` launches
all lookups concurrently and, for each key, returns the resolved value if
its future settles no later than the timeout, and a `Pending` placeholder
tagged with the key otherwise. -/
def raceAll {K V : Type} (keys : List K) (lookup : K → TimedLookup V)
    (timeout : Nat) : List (K × RaceResult K V) :=
  keys.map fun k =>
    (k, if (lookup k).settleTime ≤ timeout then RaceResult.resolved (lookup k).value
        else RaceResult.pending k)

/-- Awaiting every `Pending` entry of a race result: resolved entries keep
their value, pending entries are awaited to completion. -/
def awaitPending {K V : Type} (lookup : K → TimedLookup V)
    (m : List (K × RaceResult K V)) : List (K × V) :=
  m.map fun e =>
    (e.1, match e.2 with
          | .resolved v => v
          | .pending k => (lookup k).value)

/-! ## Deferred completion of timed-out pull-request lookups
(`LineAnnotationController`, `src/unnamed/part_001`)

An entry of the map produced by `getPullRequests` is either a settled value
(a pull request or `undefined`) or a `CancellationErrorWithId` wrapping the
still-running promise; the wrapped promise's eventual value is carried in
the model so that awaiting can be expressed. -/

inductive PrEntry (V : Type) where
  /-- A lookup that settled within the timeout (`PullRequest | undefined`). -/
  | value (v : Option V)
  /-- A lookup that timed out (`Promises.CancellationErrorWithId`); the
  still-running promise eventually resolves to `pending`. -/
  | timedOut (pending : Option V)
deriving DecidableEq, Repr

def PrEntry.isPending {V : Type} : PrEntry V → Bool
  | .timedOut _ => true
  | .value _ => false

def PrEntry.awaited {V : Type} : PrEntry V → Option V
  | .value v => v
  | .timedOut p => p

/-- The number of entries that timed out
(`Iterables.count(prs.values(), pr => pr instanceof Promises.CancellationError)`). -/
def pendingCount {V : Type} (prs : List (String × PrEntry V)) : Nat :=
  (prs.filter fun e => e.2.isPending).length

/-- The map produced by the awaiting loop of
`waitForAnyPendingPullRequests`: every timed-out entry is awaited, every
settled entry is kept. -/
def resolveEntries {V : Type} (prs : List (String × PrEntry V)) :
    List (String × Option V) :=
  prs.map fun e => (e.1, e.2.awaited)

/-- The observable context of `waitForAnyPendingPullRequests`: the state of
the cancellation token at the entry check, its state at the post-await
check, and whether `editor === this._editor` still holds after the awaits. -/
structure WaitCtx where
  cancelledBeforeWait : Bool
  cancelledAfterWait : Bool
  editorStillCurrent : Bool
deriving DecidableEq, Repr

/-- Embedding of `LineAnnotationController.waitForAnyPendingPullRequests`
(`src/unnamed/part_001`, lines 327-353).  The returned value models the
single follow-up `refresh(editor, { prs: resolved })` call: `some m` means
the refresh fired exactly once with map `m`, `none` means it was skipped. -/
def LineAnnotationController.waitForAnyPendingPullRequests {V : Type}
    (prs : List (String × PrEntry V)) (ctx : WaitCtx) :
    Option (List (String × Option V)) :=
  let count := pendingCount prs
  if ctx.cancelledBeforeWait || count == 0 then none
  else
    let resolved := resolveEntries prs
    if ctx.cancelledAfterWait || !ctx.editorStillCurrent then none
    else some resolved

/-- The pull-request acquisition step of `LineAnnotationController.refresh`
(`src/unnamed/part_001`, lines 260-279): when pull-request enrichment is
wanted, `options?.prs ?? this.getPullRequests(...)` uses the map passed by
the caller when present and only otherwise issues the lookups.  The second
component records whether `getPullRequests` was invoked. -/
def LineAnnotationController.acquirePrs {V : Type} (wantPrs : Bool)
    (optionPrs : Option (List (String × Option V)))
    (computed : Option (List (String × Option V))) :
    Option (List (String × Option V)) × Bool :=
  if wantPrs then
    match optionPrs with
    | some m => (some m, false)
    | none => (computed, true)
  else (none, false)

/-! ## BranchNode (`views/nodes/branchNode.ts`)

The node's mutable fields `_children`, `_log` and `limit` form the state;
the values returned by the awaited `Container.git` collaborator calls form
the environment.  Children are modelled by tags carrying the data the
claims depend on. -/

structure GitLog where
  commits : List String
  hasMore : Bool
  count : Nat
deriving DecidableEq, Repr

structure GitBranchState where
  ahead : Nat
  behind : Nat
deriving DecidableEq, Repr

structure GitBranch where
  name : String
  current : Bool
  remote : Bool
  tracking : Option String
  state : GitBranchState
deriving DecidableEq, Repr

structure RebaseStatus where
  incomingName : String
deriving DecidableEq, Repr

/-- The argument of `loadMore` / `log.more`: either a page size or a
`{ until: ref }` request. -/
inductive LoadMoreArg where
  | count (n : Nat)
  | untilRef (ref : String)
deriving DecidableEq, Repr

inductive TrackingKind where
  | same
  | behind
  | ahead
  | noUpstream
deriving DecidableEq, Repr

inductive BranchChild where
  | compareBranch
  | pullRequest
  | mergeStatus
  | rebaseStatus
  | tracking (kind : TrackingKind)
  | separator
  | commit (ref : String) (unpublished : Bool)
  | loadMoreNode
  | message (text : String)
deriving DecidableEq, Repr

structure BranchOptions where
  showComparison : Bool
  showStatus : Bool
  showTracking : Bool
deriving DecidableEq, Repr

structure BranchPrConfig where
  prEnabled : Bool
  prShowForBranches : Bool
deriving DecidableEq, Repr

/-- The immutable description of a `BranchNode`: its branch, whether it is
shown as a root, whether its view is a `RemotesView`, its display options
and the pull-request configuration of its view. -/
structure BranchNodeDesc where
  branch : GitBranch
  root : Bool
  viewIsRemotes : Bool
  options : BranchOptions
  cfg : BranchPrConfig
deriving DecidableEq, Repr

/-- The values the awaited collaborator calls of `BranchNode.getChildren`,
`getLog` and `loadMore` return. -/
structure BranchEnv where
  pageItemLimit : Nat
  defaultItemLimit : Nat
  /-- Result of `Container.git.getLog(repoPath, { limit, ref, authors })`, keyed by the
  requested limit. -/
  fetchLog : Nat → Option GitLog
  /-- Result of `log.more?.(...)`: the next window, `none` when `more` is absent. -/
  more : GitLog → LoadMoreArg → Option GitLog
  /-- Result of `Container.git.getStatusForRepo(...)`. -/
  statusForRepo : Option Unit
  /-- Result of `Container.git.getMergeStatus(...)`. -/
  mergeStatus : Option Unit
  /-- Result of `Container.git.getRebaseStatus(...)`. -/
  rebaseStatus : Option RebaseStatus
  /-- Result of `branch.getAssociatedPullRequest(...)`. -/
  associatedPr : Option Unit
  /-- Result of `Container.git.getBranchAheadRange(branch)`. -/
  aheadRange : Option String
  /-- Result of `Container.git.getLogRefsOnly(...)`: the set of unpublished commits. -/
  unpublishedCommits : Option (List String)

/-- The mutable fields of a `BranchNode`: `_children`, `_log`, `limit`. -/
structure BranchNodeState where
  children : Option (List BranchChild)
  log : Option GitLog
  limit : Option Nat
deriving DecidableEq, Repr

/-- Embedding of `BranchNode.getLog` (`branchNode.ts`, lines 430-447).  Returns the log,
the updated state, and whether `Container.git.getLog` was actually invoked
(`false` when the cached `_log` was served). -/
def BranchNode.getLog (n : BranchNodeDesc) (env : BranchEnv)
    (st : BranchNodeState) : Option GitLog × BranchNodeState × Bool :=
  match st.log with
  | some l => (some l, st, false)
  | none =>
    let baseLimit := st.limit.getD (if n.root then env.pageItemLimit else env.defaultItemLimit)
    let limit :=
      if baseLimit != 0 && decide (baseLimit < n.branch.state.ahead) then
        min (n.branch.state.ahead + 1) (baseLimit * 2)
      else baseLimit
    let fetched := env.fetchLog limit
    (fetched, { st with log := fetched }, true)

/-- The child-assembly part of `BranchNode.getChildren`
(`branchNode.ts`, lines 128-268), given a non-null log.  The conditional
`Promise.all` fetches are reproduced by guarding each environment value
with the condition under which the source issues the call;
`insertDateMarkers` is modelled as the identity on the commit sequence. -/
def BranchNode.assembleChildren (n : BranchNodeDesc) (env : BranchEnv)
    (log : GitLog) : List BranchChild :=
  let mergeStatus := if n.options.showStatus && n.branch.current then env.mergeStatus else none
  let rebaseStatus := if n.options.showStatus then env.rebaseStatus else none
  let pr :=
    if n.cfg.prEnabled && n.cfg.prShowForBranches &&
        (n.branch.tracking.isSome || n.branch.remote) then
      env.associatedPr
    else none
  let unpublished :=
    if env.aheadRange.isSome && !n.branch.remote then env.unpublishedCommits else none
  let comparisonChildren :=
    if n.options.showComparison && !n.viewIsRemotes then [BranchChild.compareBranch] else []
  let prChildren := if pr.isSome then [BranchChild.pullRequest] else []
  let statusChildren :=
    if n.options.showStatus && mergeStatus.isSome then [BranchChild.mergeStatus]
    else if n.options.showStatus && rebaseStatus.isSome &&
        (n.branch.current ||
          (match rebaseStatus with
           | some rs => n.branch.name == rs.incomingName
           | none => false)) then
      [BranchChild.rebaseStatus]
    else if n.options.showTracking then
      match n.branch.tracking with
      | some _ =>
        if n.root && n.branch.state.behind == 0 && n.branch.state.ahead == 0 then
          [BranchChild.tracking .same]
        else
          (if n.branch.state.behind != 0 then [BranchChild.tracking .behind] else []) ++
          (if n.branch.state.ahead != 0 then [BranchChild.tracking .ahead] else [])
      | none => [BranchChild.tracking .noUpstream]
    else []
  let head := comparisonChildren ++ prChildren ++ statusChildren
  let head := if head.length != 0 then head ++ [BranchChild.separator] else head
  let commitChildren :=
    log.commits.map fun c =>
      BranchChild.commit c
        (match unpublished with
         | some refs => refs.contains c
         | none => false)
  head ++ commitChildren ++ (if log.hasMore then [BranchChild.loadMoreNode] else [])

/-- Embedding of `BranchNode.getChildren` (`branchNode.ts`, lines 126-272).  Returns the
children, the updated state, and whether the cached `_children` were served
(`true` exactly when the body was skipped).  Note that the `log == null`
failure path returns a single message node without storing it in
`_children`. -/
def BranchNode.getChildren (n : BranchNodeDesc) (env : BranchEnv)
    (st : BranchNodeState) : List BranchChild × BranchNodeState × Bool :=
  match st.children with
  | some cs => (cs, st, true)
  | none =>
    let r := BranchNode.getLog n env st
    match r.1 with
    | none => ([BranchChild.message "No commits could be found."], r.2.1, false)
    | some l =>
      let cs := BranchNode.assembleChildren n env l
      (cs, { r.2.1 with children := some cs }, false)

/-- Embedding of `BranchNode.refresh` (`branchNode.ts`, lines 421-428):
`this._children = undefined; if (reset) { this._log = undefined; }`. -/
def BranchNode.refresh (st : BranchNodeState) (reset : Bool) : BranchNodeState :=
  { st with children := none, log := if reset then none else st.log }

/-- Embedding of `BranchNode.loadMore` (`branchNode.ts`, lines 454-472).  Reference
equality of the old and new log (`this._log === log`) is modelled as
structural equality.  The second component records whether
`triggerChange(false)` was issued. -/
def BranchNode.loadMore (n : BranchNodeDesc) (env : BranchEnv)
    (st : BranchNodeState) (limitArg : Option LoadMoreArg) :
    BranchNodeState × Bool :=
  let r := BranchNode.getLog n env st
  match r.1 with
  | none => (r.2.1, false)
  | some l =>
    if !l.hasMore then (r.2.1, false)
    else
      let newLog := env.more l (limitArg.getD (LoadMoreArg.count env.pageItemLimit))
      if newLog == some l then (r.2.1, false)
      else ({ r.2.1 with log := newLog, limit := newLog.map GitLog.count, children := none }, true)

/-- Modelled from the spec: the error-handling layer around children
computation lives in `viewBase.ts`, which is not among the extracted
sources.  Per the specification, a data-access call that throws or rejects
is logged and swallowed, and the node surfaces a single synthetic message
child; when nothing is thrown the call defers to `BranchNode.getChildren`
above.  `err` is the thrown error, if any. -/
def BranchNode.getChildrenHandled (n : BranchNodeDesc) (env : BranchEnv)
    (st : BranchNodeState) (err : Option String) :
    List BranchChild × BranchNodeState :=
  match err with
  | some _ => ([BranchChild.message "Unable to load children"], st)
  | none =>
    let r := BranchNode.getChildren n env st
    (r.1, r.2.1)

/-! ## BranchesNode (`contributorsView.ts`, second file, lines 202-291)

The repository-level "Branches" container: its `getChildren` fetches the
local branches, returns a message node when there are none, returns the
branch nodes directly in List layout — note: without storing them in
`_children` — and only stores the folder hierarchy in Tree layout. -/

inductive BranchesChild where
  | branchNode (name : String)
  | folder (name : String)
  | message (text : String)
deriving DecidableEq, Repr

structure BranchesEnv where
  /-- Result of `this.repo.getBranches({ filter: b => !b.remote, sort: ... })` before
  the remote filter; the filter itself is part of the embedded code. -/
  branches : List GitBranch
  /-- Value of `this.view.config.branches.layout === ViewBranchesLayout.List`. -/
  layoutIsList : Bool
  /-- The result of `Arrays.makeHierarchical` plus
  `BranchOrTagFolderNode.getChildren()`, abstracted as a function of the
  branch names. -/
  folderize : List String → List BranchesChild

structure BranchesNodeState where
  children : Option (List BranchesChild)
deriving DecidableEq, Repr

/-- Embedding of `BranchesNode.getChildren` (`contributorsView.ts`, second file, lines
227-272).  Returns the children, the updated state, and whether the cached
`_children` were served.  The empty-branches message and the List-layout
branch nodes are returned without being stored in `_children`. -/
def BranchesNode.getChildren (env : BranchesEnv) (st : BranchesNodeState) :
    List BranchesChild × BranchesNodeState × Bool :=
  match st.children with
  | some cs => (cs, st, true)
  | none =>
    let branches := env.branches.filter fun b => !b.remote
    if branches.length == 0 then
      ([BranchesChild.message "No branches could be found."], st, false)
    else
      let branchNodes := branches.map fun b => BranchesChild.branchNode b.name
      if env.layoutIsList then (branchNodes, st, false)
      else
        let cs := env.folderize (branches.map GitBranch.name)
        (cs, { st with children := some cs }, false)

/-- Embedding of `BranchesNode.refresh` (`contributorsView.ts`, second file, lines
286-290): `this._children = undefined`. -/
def BranchesNode.refresh (st : BranchesNodeState) : BranchesNodeState :=
  { st with children := none }

/-! ## BranchesViewNode (`branchesView.ts`, lines 64-138)

The view root node.  Its children (one `BranchesRepositoryNode` per
repository) are modelled by opaque identifiers; `refresh` is the only
operation the claims need.  Its second component records the children on
which `dispose()` was called, in order. -/

/-- Embedding of `BranchesViewNode.refresh` (`branchesView.ts`, lines 128-137):
`if (reset && this.children != null) { for (child) child.dispose();
this.children = undefined; }` — nothing happens when `reset` is false. -/
def BranchesViewNode.refresh (children : Option (List Nat)) (reset : Bool) :
    Option (List Nat) × List Nat :=
  if reset then
    match children with
    | some cs => (none, cs)
    | none => (none, [])
  else (children, [])

/-! ## The find/reveal engine (§4.2) and its concrete `canTraverse` filters

`ViewBase.findNode` lives in `viewBase.ts`, which is not among the
extracted sources (only its callers are), so the traversal itself is
modelled from the specification: a bounded-depth search that, at each
frontier node, first evaluates the predicate, then asks `canTraverse`
whether to descend, prunes without calling `getChildren()` when
`canTraverse` fails or the children would exceed `maxDepth`, and
short-circuits on the first match.  The already-materialized tree a search
runs over is a rose tree; `childrenCalls` records, with its depth, every
node on which `getChildren()` was invoked. -/

inductive NodeKind where
  | branchesViewNode
  | branchesRepositoryNode
  | branchOrTagFolderNode
  | repositoriesNode
  | repositoryNode
  | branchesNode
  | branchNode (branchName : String)
  | remoteNode (remoteName : String)
  | remotesNode
  | commitNode (ref : String)
  | otherNode
deriving DecidableEq, Repr

structure NodeInfo where
  id : String
  kind : NodeKind
deriving DecidableEq, Repr

mutual
inductive VTree where
  | node : NodeInfo → VForest → VTree
inductive VForest where
  | nil : VForest
  | cons : VTree → VForest → VForest
end

structure FindTrace where
  found : Option NodeInfo
  childrenCalls : List (Nat × NodeInfo)
deriving DecidableEq, Repr

mutual
/-- Modelled from the spec: the bounded-depth find over one subtree whose
root sits at `depth`.  `getChildren()` is called on a node only after its
predicate failed, `canTraverse` approved it, and its children would not
exceed `maxDepth`. -/
def findTree (pred canTraverse : NodeInfo → Bool) (maxDepth : Nat)
    (depth : Nat) : VTree → FindTrace
  | .node info cs =>
    if pred info then { found := some info, childrenCalls := [] }
    else if !canTraverse info then { found := none, childrenCalls := [] }
    else if maxDepth ≤ depth then { found := none, childrenCalls := [] }
    else
      let sub := findForest pred canTraverse maxDepth (depth + 1) cs
      { found := sub.found, childrenCalls := (depth, info) :: sub.childrenCalls }

/-- Modelled from the spec: the same search over a list of siblings, in
natural child order, short-circuiting on the first match. -/
def findForest (pred canTraverse : NodeInfo → Bool) (maxDepth : Nat)
    (depth : Nat) : VForest → FindTrace
  | .nil => { found := none, childrenCalls := [] }
  | .cons t ts =>
    let r := findTree pred canTraverse maxDepth depth t
    match r.found with
    | some x => { found := some x, childrenCalls := r.childrenCalls }
    | none =>
      let rs := findForest pred canTraverse maxDepth depth ts
      { found := rs.found, childrenCalls := r.childrenCalls ++ rs.childrenCalls }
end

mutual
/-- The nodes sitting exactly `d` levels below the root of the tree. -/
def VTree.nodesAt : Nat → VTree → List NodeInfo
  | 0, .node info _ => [info]
  | d + 1, .node _ cs => VForest.nodesAt d cs
def VForest.nodesAt : Nat → VForest → List NodeInfo
  | _, .nil => []
  | d, .cons t ts => VTree.nodesAt d t ++ VForest.nodesAt d ts
end

mutual
def VTree.allNodes : VTree → List NodeInfo
  | .node info cs => info :: VForest.allNodes cs
def VForest.allNodes : VForest → List NodeInfo
  | .nil => []
  | .cons t ts => VTree.allNodes t ++ VForest.allNodes ts
end

/-- Embedding of `id.startsWith(repoNodeId)`, on the underlying character lists. -/
def idStartsWith (id repoNodeId : String) : Bool :=
  repoNodeId.data.isPrefixOf id.data

/-- The `canTraverse` filter of `BranchesView.findBranch`
(`branchesView.ts`, lines 242-250): descend into the view root
unconditionally, into repository folders and branch/tag folders of the
right repository, and into nothing else. -/
def BranchesView.canTraverseFindBranch (repoNodeId : String) (n : NodeInfo) : Bool :=
  match n.kind with
  | .branchesViewNode => true
  | .branchesRepositoryNode => idStartsWith n.id repoNodeId
  | .branchOrTagFolderNode => idStartsWith n.id repoNodeId
  | _ => false

/-- The `canTraverse` filter of `RepositoriesView.findCommit` for commits
reachable from local branches (`repositoriesView.ts`, lines 324-344),
instrumented with the `loadMore` calls it issues: a `BranchNode` of the
right repository whose branch contains the commit gets
`await n.loadMore({ until: commit.ref })` before `true` is returned. -/
def RepositoriesView.canTraverseFindCommit (repoNodeId : String)
    (branches : List String) (commitRef : String) (n : NodeInfo) :
    Bool × List (String × LoadMoreArg) :=
  match n.kind with
  | .repositoriesNode => (true, [])
  | .branchNode branchName =>
    if idStartsWith n.id repoNodeId && branches.contains branchName then
      (true, [(n.id, LoadMoreArg.untilRef commitRef)])
    else (false, [])
  | .repositoryNode => (idStartsWith n.id repoNodeId, [])
  | .branchesNode => (idStartsWith n.id repoNodeId, [])
  | .branchOrTagFolderNode => (idStartsWith n.id repoNodeId, [])
  | _ => (false, [])

/-! ## CommitsView.findCommit (`src/unnamed/part_002`, lines 374-417)

The guards that run before any traversal: the repository must have a
current branch, and that branch must contain the target commit. -/

structure CommitsFindEnv (α : Type) where
  /-- Result of `Container.git.getBranch(commit.repoPath)`: the current branch. -/
  branch : Option String
  /-- Result of `Container.git.branchContainsCommit(repoPath, branchName, ref)`. -/
  branchContainsCommit : String → String → Bool
  /-- The target `commit.ref`. -/
  ref : String
  /-- Thunk for `this.findNode(...)`: the traversal itself. -/
  traverse : Unit → Option α

/-- Embedding of `CommitsView.findCommit`.  The second component records whether the
traversal (`findNode`) was attempted at all. -/
def CommitsView.findCommit {α : Type} (env : CommitsFindEnv α) : Option α × Bool :=
  match env.branch with
  | none => (none, false)
  | some b =>
    if !env.branchContainsCommit b env.ref then (none, false)
    else (env.traverse (), true)

/-! ## Concrete fixtures used by witnesses and counterexamples -/

def c1Branch : GitBranch :=
  { name := "main", current := false, remote := false, tracking := none,
    state := { ahead := 0, behind := 0 } }

def c1Desc : BranchNodeDesc :=
  { branch := c1Branch, root := false, viewIsRemotes := false,
    options := { showComparison := false, showStatus := false, showTracking := false },
    cfg := { prEnabled := false, prShowForBranches := false } }

def c1Log : GitLog := { commits := ["a"], hasMore := false, count := 1 }

def c1Env : BranchEnv :=
  { pageItemLimit := 20, defaultItemLimit := 10,
    fetchLog := fun _ => some c1Log,
    more := fun l _ => some l,
    statusForRepo := none, mergeStatus := none, rebaseStatus := none,
    associatedPr := none, aheadRange := none, unpublishedCommits := none }

def listLayoutEnv : BranchesEnv :=
  { branches := [c1Branch], layoutIsList := true,
    folderize := fun names => names.map BranchesChild.folder }

def treeLayoutEnv : BranchesEnv :=
  { listLayoutEnv with layoutIsList := false }

def c8Env : BranchEnv :=
  { c1Env with fetchLog := fun _ => none }

def c8BranchesEnv : BranchesEnv :=
  { branches := [], layoutIsList := true, folderize := fun _ => [] }

def c3Tree : VTree :=
  VTree.node ⟨"view", NodeKind.branchesViewNode⟩
    (VForest.cons (VTree.node ⟨"r1:branches", NodeKind.branchesRepositoryNode⟩ VForest.nil)
      (VForest.cons (VTree.node ⟨"r1:remotes", NodeKind.remotesNode⟩ VForest.nil)
        VForest.nil))

def c5Log : GitLog := { commits := ["a", "b"], hasMore := false, count := 2 }

def c5State : BranchNodeState := { children := none, log := some c5Log, limit := none }

def c5Tree : VTree :=
  VTree.node ⟨"root", NodeKind.repositoriesNode⟩
    (VForest.cons (VTree.node ⟨"r1", NodeKind.repositoryNode⟩ VForest.nil) VForest.nil)

def c7Keys : List String := ["k1", "k2", "k3", "k4", "k5"]

def c7Lookup : String → TimedLookup Nat := fun k =>
  if k == "k1" then ⟨50, 1⟩
  else if k == "k2" then ⟨50, 2⟩
  else if k == "k3" then ⟨50, 3⟩
  else if k == "k4" then ⟨300, 4⟩
  else ⟨300, 5⟩

/-! ## Helper lemmas -/

/-- Serving the cache: `getChildren` on a node whose `_children` are
populated returns them unchanged, from the cache. -/
theorem BranchNode.getChildren_cached (n : BranchNodeDesc) (env : BranchEnv)
    (st : BranchNodeState) (cs : List BranchChild) (h : st.children = some cs) :
    BranchNode.getChildren n env st = (cs, st, true) := by
  unfold BranchNode.getChildren
  rw [h]

/-- Serving the cache, `BranchesNode` version. -/
theorem BranchesNode.getChildrenCached (env : BranchesEnv)
    (st : BranchesNodeState) (cs : List BranchesChild) (h : st.children = some cs) :
    BranchesNode.getChildren env st = (cs, st, true) := by
  unfold BranchesNode.getChildren
  rw [h]

mutual
/-- Every `getChildren()` call issued by the find engine below the root of
`t` (placed at `depth`) happens at a recorded depth between `depth`
(inclusive) and `maxDepth` (exclusive), on a node `canTraverse` approved,
and on a node that really sits at that depth of the tree. -/
theorem findTree_childrenCalls_spec (pred ct : NodeInfo → Bool) (maxDepth depth : Nat)
    (t : VTree) :
    ∀ p ∈ (findTree pred ct maxDepth depth t).childrenCalls,
      depth ≤ p.1 ∧ p.1 < maxDepth ∧ ct p.2 = true ∧
        p.2 ∈ VTree.nodesAt (p.1 - depth) t := by
  cases t with
  | node info cs =>
    intro p hp
    by_cases h1 : pred info = true
    · simp [findTree, h1] at hp
    · by_cases h2 : ct info = true
      · by_cases h3 : maxDepth ≤ depth
        · simp [findTree, h1, h2, h3] at hp
        · have hp' : p = (depth, info) ∨
              p ∈ (findForest pred ct maxDepth (depth + 1) cs).childrenCalls := by
            simpa [findTree, h1, h2, h3] using hp
          rcases hp' with rfl | hp'
          · refine ⟨le_refl _, by omega, h2, ?_⟩
            show info ∈ VTree.nodesAt (depth - depth) (VTree.node info cs)
            rw [Nat.sub_self]
            simp [VTree.nodesAt]
          · have h := findForest_childrenCalls_spec pred ct maxDepth (depth + 1) cs p hp'
            refine ⟨by omega, h.2.1, h.2.2.1, ?_⟩
            have he : p.1 - depth = (p.1 - (depth + 1)) + 1 := by omega
            rw [he]
            simpa [VTree.nodesAt] using h.2.2.2
      · simp [findTree, h1, h2] at hp
termination_by sizeOf t

/-- Forest version of `findTree_childrenCalls_spec`. -/
theorem findForest_childrenCalls_spec (pred ct : NodeInfo → Bool) (maxDepth depth : Nat)
    (f : VForest) :
    ∀ p ∈ (findForest pred ct maxDepth depth f).childrenCalls,
      depth ≤ p.1 ∧ p.1 < maxDepth ∧ ct p.2 = true ∧
        p.2 ∈ VForest.nodesAt (p.1 - depth) f := by
  cases f with
  | nil =>
    intro p hp
    simp [findForest] at hp
  | cons t ts =>
    intro p hp
    rcases hf : (findTree pred ct maxDepth depth t).found with _ | x
    · have hp' : p ∈ (findTree pred ct maxDepth depth t).childrenCalls ∨
          p ∈ (findForest pred ct maxDepth depth ts).childrenCalls := by
        simpa [findForest, hf] using hp
      rcases hp' with h | h
      · have hh := findTree_childrenCalls_spec pred ct maxDepth depth t p h
        refine ⟨hh.1, hh.2.1, hh.2.2.1, ?_⟩
        simp only [VForest.nodesAt, List.mem_append]
        exact Or.inl hh.2.2.2
      · have hh := findForest_childrenCalls_spec pred ct maxDepth depth ts p h
        refine ⟨hh.1, hh.2.1, hh.2.2.1, ?_⟩
        simp only [VForest.nodesAt, List.mem_append]
        exact Or.inr hh.2.2.2
    · have hp' : p ∈ (findTree pred ct maxDepth depth t).childrenCalls := by
        simpa [findForest, hf] using hp
      have hh := findTree_childrenCalls_spec pred ct maxDepth depth t p hp'
      refine ⟨hh.1, hh.2.1, hh.2.2.1, ?_⟩
      simp only [VForest.nodesAt, List.mem_append]
      exact Or.inl hh.2.2.2
termination_by sizeOf f
end

mutual
/-- If the predicate holds of no node of the tree, the find engine reports
absence (`undefined`), not an error. -/
theorem findTree_found_none (pred ct : NodeInfo → Bool) (D d : Nat) (t : VTree)
    (h : ∀ i ∈ VTree.allNodes t, pred i = false) :
    (findTree pred ct D d t).found = none := by
  cases t with
  | node info cs =>
    have hinfo : pred info = false := h info (by simp [VTree.allNodes])
    by_cases h2 : ct info = true
    · by_cases h3 : D ≤ d
      · simp [findTree, hinfo, h2, h3]
      · have hsub := findForest_found_none pred ct D (d + 1) cs
          (fun i hi => h i (by simp [VTree.allNodes]; exact Or.inr hi))
        simp [findTree, hinfo, h2, h3, hsub]
    · simp [findTree, hinfo, h2]
termination_by sizeOf t

/-- Forest version of `findTree_found_none`. -/
theorem findForest_found_none (pred ct : NodeInfo → Bool) (D d : Nat) (f : VForest)
    (h : ∀ i ∈ VForest.allNodes f, pred i = false) :
    (findForest pred ct D d f).found = none := by
  cases f with
  | nil => simp [findForest]
  | cons t ts =>
    have h1 := findTree_found_none pred ct D d t
      (fun i hi => h i (by simp [VForest.allNodes]; exact Or.inl hi))
    have h2 := findForest_found_none pred ct D d ts
      (fun i hi => h i (by simp [VForest.allNodes]; exact Or.inr hi))
    simp [findForest, h1, h2]
termination_by sizeOf f
end

/-- Lemma: the `canTraverse` of `BranchesView.findBranch` admits only the view root,
repository folders and branch/tag folders — in particular no remote
container and no branch node. -/
theorem canTraverseFindBranch_kinds (r : String) (n : NodeInfo)
    (h : BranchesView.canTraverseFindBranch r n = true) :
    n.kind = NodeKind.branchesViewNode ∨ n.kind = NodeKind.branchesRepositoryNode ∨
      n.kind = NodeKind.branchOrTagFolderNode := by
  rcases n with ⟨id, kind⟩
  cases kind <;> simp_all [BranchesView.canTraverseFindBranch]

/-! ## Claim theorems -/

/-- Claim C2: a ChangeEvent matches a watch set in ANY mode iff the
intersection of the event's changed kinds with the watch set is non-empty
or the event contains `Unknown`; in ALL mode iff the watch set is included
in the changed kinds; an event containing `Unknown` matches every ANY-mode
matcher; and an event whose changed kinds are exactly `{Status}` does not
match the contributors repository node's watch set
`{Config, Heads, Remotes, Unknown}` in ANY mode. -/
theorem C2_changed_matching (e : RepositoryChangeEvent) (ks : List RepositoryChange) :
    (e.changed ks .Any = true ↔
      (∃ k ∈ ks, k ∈ e.changedKinds) ∨ RepositoryChange.Unknown ∈ e.changedKinds) ∧
    (e.changed ks .All = true ↔ ∀ k ∈ ks, k ∈ e.changedKinds) ∧
    (RepositoryChange.Unknown ∈ e.changedKinds → e.changed ks .Any = true) ∧
    ContributorsRepositoryNode.changed ⟨[RepositoryChange.Status]⟩ = false := by
  refine ⟨?_, ?_, ?_, by decide⟩
  · simp [RepositoryChangeEvent.changed, List.any_eq_true]
  · simp [RepositoryChangeEvent.changed, List.all_eq_true]
  · intro h
    simp only [RepositoryChangeEvent.changed, Bool.or_eq_true]
    exact Or.inr (by simpa using h)

/-- Witness for C2 at a concrete event: `{Unknown}` matches the watch set
`{Heads}` in ANY mode even though the intersection is empty. -/
theorem C2_changed_matching_witness :
    RepositoryChangeEvent.changed ⟨[RepositoryChange.Unknown]⟩ [RepositoryChange.Heads] .Any
      = true :=
  (C2_changed_matching ⟨[RepositoryChange.Unknown]⟩ [RepositoryChange.Heads]).2.2.1 (by decide)

/-- Claim C7: in the map `raceAll` returns, every key whose lookup settles
at time `t ≤ T` holds the resolved value and every key whose lookup settles
at `t > T` holds a `Pending` placeholder tagged with the key; and after
awaiting every `Pending` entry the fully resolved map equals what unbounded
awaiting of the lookup for every key would have produced. -/
theorem C7_raceAll_partition (K V : Type) (keys : List K) (lookup : K → TimedLookup V)
    (T : Nat) :
    (∀ k ∈ keys,
      ((lookup k).settleTime ≤ T →
        (k, RaceResult.resolved (lookup k).value) ∈ raceAll keys lookup T) ∧
      (T < (lookup k).settleTime →
        (k, (RaceResult.pending k : RaceResult K V)) ∈ raceAll keys lookup T)) ∧
    awaitPending lookup (raceAll keys lookup T) = keys.map fun k => (k, (lookup k).value) := by
  constructor
  · intro k hk
    constructor
    · intro h
      exact List.mem_map.mpr ⟨k, hk, by simp [h]⟩
    · intro h
      exact List.mem_map.mpr ⟨k, hk, by simp [Nat.not_le.mpr h]⟩
  · unfold awaitPending raceAll
    rw [List.map_map]
    congr 1
    funext k
    by_cases h : (lookup k).settleTime ≤ T <;> simp [h, Function.comp]

/-- Witness for C7, Scenario C: five keys raced with `T = 100`; the three
that settle at 50 come back resolved, one that settles at 300 comes back
pending, and awaiting the pending entries reproduces the unbounded result. -/
theorem C7_raceAll_partition_witness :
    ("k1", RaceResult.resolved 1) ∈ raceAll c7Keys c7Lookup 100 ∧
    ("k4", (RaceResult.pending "k4" : RaceResult String Nat)) ∈ raceAll c7Keys c7Lookup 100 ∧
    awaitPending c7Lookup (raceAll c7Keys c7Lookup 100) =
      [("k1", 1), ("k2", 2), ("k3", 3), ("k4", 4), ("k5", 5)] := by
  have h := C7_raceAll_partition String Nat c7Keys c7Lookup 100
  refine ⟨(h.1 "k1" (by decide)).1 (by decide), (h.1 "k4" (by decide)).2 (by decide), ?_⟩
  rw [h.2]
  decide

/-- Claim C4: after the racer returns a map with timed-out entries, the
caller fires the follow-up refresh exactly once — with the map obtained by
awaiting every pending entry — precisely when there was at least one
pending entry, no cancellation was requested at either check, and the
originating editor is still current; the awaited map keeps the keys; and a
refresh invoked with an already-resolved map issues no new lookups. -/
theorem C4_deferred_single_refresh (V : Type) (prs : List (String × PrEntry V))
    (ctx : WaitCtx) :
    (LineAnnotationController.waitForAnyPendingPullRequests prs ctx =
      if !ctx.cancelledBeforeWait && !(pendingCount prs == 0) && !ctx.cancelledAfterWait
          && ctx.editorStillCurrent
      then some (resolveEntries prs) else none) ∧
    ((resolveEntries prs).map Prod.fst = prs.map Prod.fst) ∧
    (∀ (want : Bool) (m : List (String × Option V))
        (computed : Option (List (String × Option V))),
      LineAnnotationController.acquirePrs want (some m) computed =
        ((if want then some m else none), false)) := by
  refine ⟨?_, ?_, ?_⟩
  · unfold LineAnnotationController.waitForAnyPendingPullRequests
    rcases ctx with ⟨b1, b2, b3⟩
    cases b1 <;> cases b2 <;> cases b3 <;> by_cases h : pendingCount prs = 0 <;> simp [h]
  · unfold resolveEntries
    rw [List.map_map]
    rfl
  · intro want m computed
    cases want <;> simp [LineAnnotationController.acquirePrs]

/-- Claim C9: `CommitsView.findCommit` attempts the tree traversal exactly
when the repository has a current branch that contains the target commit,
and whenever the traversal is not attempted the result is `undefined`
(`none`), not an error. -/
theorem C9_findCommit_guards (α : Type) (env : CommitsFindEnv α) :
    ((CommitsView.findCommit env).2 = true ↔
      ∃ b, env.branch = some b ∧ env.branchContainsCommit b env.ref = true) ∧
    ((CommitsView.findCommit env).2 = false → (CommitsView.findCommit env).1 = none) := by
  constructor
  · cases hb : env.branch with
    | none => simp [CommitsView.findCommit, hb]
    | some b =>
      by_cases hc : env.branchContainsCommit b env.ref = true
      · simp [CommitsView.findCommit, hb, hc]
      · simp [CommitsView.findCommit, hb, hc]
  · intro h
    cases hb : env.branch with
    | none => simp [CommitsView.findCommit, hb]
    | some b =>
      by_cases hc : env.branchContainsCommit b env.ref = true
      · simp [CommitsView.findCommit, hb, hc] at h
      · simp [CommitsView.findCommit, hb, hc]

/-- Witness for C9: a repository with no current branch yields `undefined`
without traversal. -/
theorem C9_findCommit_guards_witness :
    (CommitsView.findCommit
      { branch := none, branchContainsCommit := fun _ _ => false,
        ref := "abc123", traverse := fun _ => (some 0 : Option Nat) }).1 = none :=
  (C9_findCommit_guards Nat
    { branch := none, branchContainsCommit := fun _ _ => false,
      ref := "abc123", traverse := fun _ => (some 0 : Option Nat) }).2 rfl

/-- Claim C10: `BranchNode.refresh` with `reset = false` clears only the
cached children, leaving the loaded commit-log window and the page limit
unchanged, so that the next `getLog` serves the same window without a
fetch; only `refresh` with `reset = true` additionally clears the log, after
which `getLog` fetches again (the limit is untouched in both cases). -/
theorem C10_refresh_frame (n : BranchNodeDesc) (env : BranchEnv)
    (st : BranchNodeState) (l : GitLog) :
    (BranchNode.refresh st false = { st with children := none }) ∧
    (BranchNode.refresh st true = { st with children := none, log := none }) ∧
    ((BranchNode.refresh st false).limit = st.limit ∧
      (BranchNode.refresh st true).limit = st.limit) ∧
    (BranchNode.getLog n env { st with log := some l } =
      (some l, { st with log := some l }, false)) ∧
    ((BranchNode.getLog n env (BranchNode.refresh st true)).2.2 = true) := by
  refine ⟨rfl, rfl, ⟨rfl, rfl⟩, rfl, rfl⟩

/-- Claim C6 (amended): only `refresh(reset = true)` on the view root node
disposes every previously held child and nulls the children cache;
`refresh(reset = false)` leaves the children untouched and disposes
nothing; and `BranchNode.refresh` nulls its children cache without
disposing them. -/
theorem C6_amended_refresh_disposal (cs : List Nat) (c : Option (List Nat))
    (st : BranchNodeState) (reset : Bool) :
    (BranchesViewNode.refresh (some cs) true = (none, cs)) ∧
    (BranchesViewNode.refresh c false = (c, [])) ∧
    ((BranchNode.refresh st reset).children = none) := by
  refine ⟨rfl, rfl, rfl⟩

/-- Counterexample to claim C6 as stated: invalidating a `BranchesViewNode`
holding one child with `reset = false` neither nulls out the cached
children nor disposes the child — the children list is returned intact and
the disposal list is empty. -/
theorem C6_counterexample_no_disposal :
    (BranchesViewNode.refresh (some [0]) false).1 ≠ none ∧
    (BranchesViewNode.refresh (some [0]) false).1 = some [0] ∧
    (BranchesViewNode.refresh (some [0]) false).2 = [] := by
  refine ⟨by decide, rfl, rfl⟩

/-- Claim C1 (amended): whenever a `getChildren()` call leaves the
children cache populated, the next call (with no intervening invalidation)
returns precisely the cached sequence, served from the cache, with the
state untouched — for `BranchNode` and for `BranchesNode` alike.  The
paths that return early (a null log; `BranchesNode` in List layout) do not
store anything, so subsequent calls recompute instead. -/
theorem C1_amended_idempotent_cache (n : BranchNodeDesc) (env : BranchEnv)
    (st : BranchNodeState) (cs : List BranchChild) (benv : BranchesEnv)
    (bst : BranchesNodeState) (bcs : List BranchesChild) :
    ((BranchNode.getChildren n env st).2.1.children = some cs →
      BranchNode.getChildren n env (BranchNode.getChildren n env st).2.1 =
        (cs, (BranchNode.getChildren n env st).2.1, true)) ∧
    ((BranchesNode.getChildren benv bst).2.1.children = some bcs →
      BranchesNode.getChildren benv (BranchesNode.getChildren benv bst).2.1 =
        (bcs, (BranchesNode.getChildren benv bst).2.1, true)) :=
  ⟨fun h => BranchNode.getChildren_cached n env _ cs h,
   fun h => BranchesNode.getChildrenCached benv _ bcs h⟩

/-- Witness for C1 (amended): a branch node whose log fetch succeeds caches
`[commit "a"]` on the first call and serves it from the cache on the
second; a `BranchesNode` in Tree layout caches its folder hierarchy
likewise. -/
theorem C1_amended_idempotent_cache_witness :
    BranchNode.getChildren c1Desc c1Env
        (BranchNode.getChildren c1Desc c1Env ⟨none, none, none⟩).2.1 =
      ([BranchChild.commit "a" false],
        (BranchNode.getChildren c1Desc c1Env ⟨none, none, none⟩).2.1, true) ∧
    BranchesNode.getChildren treeLayoutEnv
        (BranchesNode.getChildren treeLayoutEnv ⟨none⟩).2.1 =
      ([BranchesChild.folder "main"],
        (BranchesNode.getChildren treeLayoutEnv ⟨none⟩).2.1, true) := by
  have h := C1_amended_idempotent_cache c1Desc c1Env ⟨none, none, none⟩
    [BranchChild.commit "a" false] treeLayoutEnv ⟨none⟩ [BranchesChild.folder "main"]
  exact ⟨h.1 rfl, h.2 rfl⟩

/-- Counterexample to claim C1 as stated: `BranchesNode.getChildren` in
List layout returns its freshly built branch nodes without storing them, so
the first call does not populate the cache and the second call recomputes
instead of serving a cached (reference-identical) sequence. -/
theorem C1_counterexample_list_layout_not_cached :
    (BranchesNode.getChildren listLayoutEnv ⟨none⟩).1 = [BranchesChild.branchNode "main"] ∧
    (BranchesNode.getChildren listLayoutEnv ⟨none⟩).2.1.children = none ∧
    (BranchesNode.getChildren listLayoutEnv
      ((BranchesNode.getChildren listLayoutEnv ⟨none⟩).2.1)).2.2 = false := by
  refine ⟨rfl, rfl, rfl⟩

/-- Claim C8: when computing a node's children fails — the data-access call
throws (caught by the view layer, modelled from the spec), or it yields no
log, or no local branches exist — `getChildren()` returns a sequence
consisting of a single synthetic message node instead of throwing or
aborting the parent traversal. -/
theorem C8_failure_single_message_node (n : BranchNodeDesc) (env : BranchEnv)
    (st : BranchNodeState) (e : String) (benv : BranchesEnv) (bst : BranchesNodeState) :
    ((BranchNode.getChildrenHandled n env st (some e)).1 =
      [BranchChild.message "Unable to load children"]) ∧
    (st.children = none → st.log = none → (∀ m, env.fetchLog m = none) →
      (BranchNode.getChildren n env st).1 =
        [BranchChild.message "No commits could be found."]) ∧
    (bst.children = none → (benv.branches.filter fun b => !b.remote) = [] →
      (BranchesNode.getChildren benv bst).1 =
        [BranchesChild.message "No branches could be found."]) := by
  refine ⟨rfl, ?_, ?_⟩
  · intro h1 h2 h3
    simp [BranchNode.getChildren, BranchNode.getLog, h1, h2, h3]
  · intro h1 h2
    simp [BranchesNode.getChildren, h1, h2]

/-- Witness for C8: a thrown error, a node whose log fetch yields nothing,
and a repository with no local branches each surface exactly one message
node. -/
theorem C8_failure_single_message_node_witness :
    (BranchNode.getChildrenHandled c1Desc c8Env ⟨none, none, none⟩ (some "boom")).1 =
      [BranchChild.message "Unable to load children"] ∧
    (BranchNode.getChildren c1Desc c8Env ⟨none, none, none⟩).1 =
      [BranchChild.message "No commits could be found."] ∧
    (BranchesNode.getChildren c8BranchesEnv ⟨none⟩).1 =
      [BranchesChild.message "No branches could be found."] := by
  have h := C8_failure_single_message_node c1Desc c8Env ⟨none, none, none⟩ "boom"
    c8BranchesEnv ⟨none⟩
  exact ⟨h.1, h.2.1 rfl rfl (fun _ => rfl), h.2.2 rfl rfl⟩

/-- Claim C5: `loadMore` is a no-op when the node's log window is already
exhausted (`hasMore` false); during a paging reveal, `canTraverse` of
`RepositoriesView.findCommit` calls the candidate branch node's `loadMore`
with `{ until: commit.ref }` before allowing the descent (and hence before
the branch can be given up on); and when no node matches the predicate the
find engine returns `undefined` (`none`), not an error. -/
theorem C5_paging_loadMore (n : BranchNodeDesc) (env : BranchEnv)
    (st : BranchNodeState) (l : GitLog) (arg : Option LoadMoreArg)
    (repoNodeId : String) (branches : List String) (commitRef id branchName : String)
    (pred ct : NodeInfo → Bool) (D d : Nat) (t : VTree) :
    (st.log = some l → l.hasMore = false →
      BranchNode.loadMore n env st arg = (st, false)) ∧
    (idStartsWith id repoNodeId = true → branches.contains branchName = true →
      RepositoriesView.canTraverseFindCommit repoNodeId branches commitRef
          ⟨id, NodeKind.branchNode branchName⟩ =
        (true, [(id, LoadMoreArg.untilRef commitRef)])) ∧
    ((∀ i ∈ VTree.allNodes t, pred i = false) → (findTree pred ct D d t).found = none) := by
  refine ⟨?_, ?_, ?_⟩
  · intro h1 h2
    simp [BranchNode.loadMore, BranchNode.getLog, h1, h2]
  · intro h1 h2
    simp [RepositoriesView.canTraverseFindCommit, h1, h2]
    exact List.mem_of_elem_eq_true h2
  · intro h
    exact findTree_found_none pred ct D d t h

/-- Witness for C5: an exhausted window makes `loadMore` a no-op; a
candidate branch node of the right repository triggers
`loadMore({ until: "abc123" })`; and a two-node tree with a never-matching
predicate yields `undefined`. -/
theorem C5_paging_loadMore_witness :
    BranchNode.loadMore c1Desc c1Env c5State none = (c5State, false) ∧
    RepositoriesView.canTraverseFindCommit "r1" ["main"] "abc123"
        ⟨"r1:branch(main)", NodeKind.branchNode "main"⟩ =
      (true, [("r1:branch(main)", LoadMoreArg.untilRef "abc123")]) ∧
    (findTree (fun _ => false) (fun _ => true) 4 0 c5Tree).found = none := by
  have h := C5_paging_loadMore c1Desc c1Env c5State c5Log none "r1" ["main"] "abc123"
    "r1:branch(main)" "main" (fun _ => false) (fun _ => true) 4 0 c5Tree
  exact ⟨h.1 rfl rfl, h.2.1 (by decide) (by decide), h.2.2 (fun i _ => rfl)⟩

/-- Claim C3: for every root, predicate and depth bound, the find engine
never calls `getChildren()` on a node whose depth from the root exceeds the
bound, never on a node `canTraverse` rejected, and each call targets a node
really sitting at the recorded depth; consequently, under the `canTraverse`
filter of `BranchesView.findBranch`, `getChildren()` is only ever called on
the view root, repository folders and branch/tag folders — never on a
remote container or any remote-branch subtree. -/
theorem C3_find_depth_and_pruning (pred ct : NodeInfo → Bool) (D : Nat) (t : VTree)
    (repoNodeId : String) (pred2 : NodeInfo → Bool) (t2 : VTree) :
    (∀ p ∈ (findTree pred ct D 0 t).childrenCalls,
      p.1 ≤ D ∧ ct p.2 = true ∧ p.2 ∈ VTree.nodesAt p.1 t) ∧
    (∀ p ∈ (findTree pred2 (BranchesView.canTraverseFindBranch repoNodeId) D 0 t2).childrenCalls,
      p.2.kind = NodeKind.branchesViewNode ∨ p.2.kind = NodeKind.branchesRepositoryNode ∨
        p.2.kind = NodeKind.branchOrTagFolderNode) := by
  constructor
  · intro p hp
    have h := findTree_childrenCalls_spec pred ct D 0 t p hp
    exact ⟨Nat.le_of_lt h.2.1, h.2.2.1, by simpa using h.2.2.2⟩
  · intro p hp
    have h := findTree_childrenCalls_spec pred2 (BranchesView.canTraverseFindBranch repoNodeId)
      D 0 t2 p hp
    exact canTraverseFindBranch_kinds repoNodeId p.2 h.2.2.1

/-- Witness for C3: on a small branches-view tree the engine does call
`getChildren()` on the approved repository folder at depth 1, and the
insights of the theorem hold of that call. -/
theorem C3_find_depth_and_pruning_witness :
    ((1 : Nat) ≤ 4 ∧
      BranchesView.canTraverseFindBranch "r1" ⟨"r1:branches", NodeKind.branchesRepositoryNode⟩
        = true ∧
      (⟨"r1:branches", NodeKind.branchesRepositoryNode⟩ : NodeInfo) ∈ VTree.nodesAt 1 c3Tree) ∧
    ((⟨"r1:branches", NodeKind.branchesRepositoryNode⟩ : NodeInfo).kind =
        NodeKind.branchesViewNode ∨
      (⟨"r1:branches", NodeKind.branchesRepositoryNode⟩ : NodeInfo).kind =
        NodeKind.branchesRepositoryNode ∨
      (⟨"r1:branches", NodeKind.branchesRepositoryNode⟩ : NodeInfo).kind =
        NodeKind.branchOrTagFolderNode) := by
  have h := C3_find_depth_and_pruning (fun _ => false)
    (BranchesView.canTraverseFindBranch "r1") 4 c3Tree "r1" (fun _ => false) c3Tree
  exact ⟨h.1 (1, ⟨"r1:branches", NodeKind.branchesRepositoryNode⟩) (by decide),
    h.2 (1, ⟨"r1:branches", NodeKind.branchesRepositoryNode⟩) (by decide)⟩
